import Mathlib

/-!
Verification of the energy-allocator pipeline against its specification.

The development shallowly embeds the Python sources (`spot_module.py`,
`energy_allocator.py`, `auxiliary_module.py`): pandas column arithmetic
becomes `List.zipWith` over `ℚ`, a DataFrame becomes an ordered list of
named columns, and the cache-repair / format-detection control flow becomes
explicit Lean functions mirroring the branch structure of the code.
Numeric values are idealised as rationals; pandas `round` (half-to-even)
is modelled explicitly where the code applies it.
-/

namespace EnergyAlloc

/-! ## Column-name constants (from `EnergyAllocator.__init__`) -/

def spot_price_median : String := "Spot median [c/kWh]"

def spot_price_median_fees : String := "Spot median w/ fees [c/kWh]"

def production_column : String := "PV production [kWh]"

def company_column : String := "Company consumption [kWh]"

def company_after_pv : String := "Company after PV [kWh]"

def value_after_subtraction : String := "Company value of coverage [c]"

def pv_after_company : String := "PV post company [kWh]"

def pv_over_production : String := "PV over production [kWh]"

def value_to_grid : String := "Electricity value to grid [c]"

/-- Per-apartment column names: `temp_apartment_consumption.replace("APP", apartment)`
and its two siblings. -/
def apt_consumption_column (apartment : String) : String :=
  apartment ++ " consumption [kWh]"

def apt_after_pv_column (apartment : String) : String :=
  apartment ++ " after PV [kWh]"

def apt_value_column (apartment : String) : String :=
  apartment ++ " value of coverage [c]"

/-! ## Frames: a pandas DataFrame as an ordered list of named rational columns -/

structure Col where
  name : String
  vals : List ℚ
deriving DecidableEq, Inhabited

abbrev Frame := List Col

/-- Pointwise `Series.clip(lower=0)`. -/
def clip0 (q : ℚ) : ℚ := max q 0

/-! ## Price cache repair (`update_cache` in `spot_module.py`, lines 136-171)

`update_cache` first checks `dataframe.index.year.max() < end_year` and, if so,
fetches `(max+1-01-01 .. end_year-12-31)`; only otherwise (`elif`) does it check
`dataframe.index.year.min() > start_year` and fetch `(start_year .. min-1)`.
We embed the fetch decision over the four years that drive it; the returned
option is the single contiguous year range handed to `from_api_to_dataframe`. -/

def update_cache_fetch (cacheMinYear cacheMaxYear startYear endYear : Int) :
    Option (Int × Int) :=
  if cacheMaxYear < endYear then some (cacheMaxYear + 1, endYear)
  else if startYear < cacheMinYear then some (startYear, cacheMinYear - 1)
  else none

/-- The external fetches performed by one `spot_get_price` call when a cache
file exists: exactly those issued by its inner `update_cache`. -/
def spot_get_price_fetches (cacheMinYear cacheMaxYear startYear endYear : Int) :
    List (Int × Int) :=
  (update_cache_fetch cacheMinYear cacheMaxYear startYear endYear).toList

/-! ## Company balance (`calculate_company`, `energy_allocator.py` lines 184-203) -/

/-- `dataframe[company_after_pv] = (cons - prod).clip(lower=0)`. -/
def company_after_vals (prod cons : List ℚ) : List ℚ :=
  List.zipWith (fun c p => clip0 (c - p)) cons prod

/-- `covered = cons - after; value = fees * covered`. -/
def company_value_vals (fees prod cons : List ℚ) : List ℚ :=
  List.zipWith (fun pf covered => pf * covered) fees
    (List.zipWith (fun c a => c - a) cons (company_after_vals prod cons))

/-- `dataframe[pv_after_company] = (prod - cons).clip(lower=0)`. -/
def pv_after_company_vals (prod cons : List ℚ) : List ℚ :=
  List.zipWith (fun p c => clip0 (p - c)) prod cons

/-- The frame returned by `calculate_company`, given the aligned median,
median-with-fees, production and company-consumption series.  Columns appear
in assignment order: the two spot columns from `spot_remove_years`, then
production, company consumption, and the three derived columns. -/
def calculate_company_frame (med fees prod cons : List ℚ) : Frame :=
  [⟨spot_price_median, med⟩, ⟨spot_price_median_fees, fees⟩,
   ⟨production_column, prod⟩, ⟨company_column, cons⟩,
   ⟨company_after_pv, company_after_vals prod cons⟩,
   ⟨value_after_subtraction, company_value_vals fees prod cons⟩,
   ⟨pv_after_company, pv_after_company_vals prod cons⟩]

/-! ## Apartment specs and by-type expansion
(`add_apartment_consumption`, `energy_allocator.py` lines 230-244) -/

structure AptSpec where
  apartment : String
  allocation : ℚ
  amount : Nat
  profile : String
deriving DecidableEq, Inhabited

/-- Sum of the replication counts of a spec list. -/
def amountSum (specs : List AptSpec) : Nat := (specs.map (fun s => s.amount)).sum

/-- The "by type" branch: repeat each row `amount` times
(`index.repeat(amount)`), number all repeated rows by one global counter
starting at 1 (`range(1, len+1)`), suffix the type identifier with that
counter, and divide each row's allocation by its own `amount`. -/
def add_apartment_by_type (specs : List AptSpec) : List (String × ℚ × String) :=
  ((specs.flatMap fun s => List.replicate s.amount s).enum).map
    (fun p => (p.2.apartment ++ toString (p.1 + 1),
               p.2.allocation / (p.2.amount : ℚ), p.2.profile))

/-! ## Hourly median aggregation (`spot_calculate_median`, `spot_module.py`
lines 262-270)

A pivot row holds, for one `hour_key`, one entry per year column (`none` when
that year has no data for the slot).  `median(axis=1)` in pandas skips
missing entries, sorts the present values and takes the middle element (odd
count) or the mean of the two middle elements (even count). -/

/-- Sorted (ascending) copy of a list of rationals. -/
def sortQ (xs : List ℚ) : List ℚ := xs.insertionSort (fun a b => a ≤ b)

/-- Statistical median: `none` on the empty list (pandas NaN), middle element
for odd length, mean of the two middle elements for even length. -/
def median (xs : List ℚ) : Option ℚ :=
  if xs.length = 0 then none
  else if xs.length % 2 = 1 then some ((sortQ xs).getD (xs.length / 2) 0)
  else some (((sortQ xs).getD (xs.length / 2 - 1) 0 + (sortQ xs).getD (xs.length / 2) 0) / 2)

/-- One row of `dataframe.median(axis=1)` over the year columns: missing years
are skipped, not treated as zero. -/
def rowMedian (ys : List (Option ℚ)) : Option ℚ := median (ys.filterMap id)

/-- `self.additional_fee = (1 + vat_perc + transfer_fee_perc)` from `__init__`. -/
def additional_fee (vat transfer : ℚ) : ℚ := 1 + vat + transfer

/-- The fees column of `spot_calculate_median`: the code adds the raw-median
column first and then evaluates `dataframe.median(axis=1)` again, so this
second median ranges over the year columns together with the just-added
median column, and the result is scaled by `additional_fee`. -/
def rowMedianFees (fee : ℚ) (ys : List (Option ℚ)) : Option ℚ :=
  (median ((ys ++ [rowMedian ys]).filterMap id)).map (fun m => m * fee)

/-! ## Timestamp format detection (`auxiliary_module.py`)

`AuxiliaryVar.date_time_formats` is the fixed ordered candidate list
(source lines 12-41, duplicates kept in source order); the detection loop of
`profile_csv_to_dataframe` (lines 123-134) walks the first 20 non-null
samples and, per sample, the candidate list in order, stopping at the first
`time.strptime` success. -/

def date_time_formats : List String :=
  ["%m/%d/", "%d/%m/", "%m-%d", "%f/%e/", "%b %e, ", "%B %e, ",
   "%m-%d %H:%M:%S", "%m-%d %I:%M:%S %p", "%d %B ", "%b %e, ",
   "%H:%M:%S", "%I:%M:%S %p", "%d.%m. %H:%M",
   "%m/%d/%Y", "%d/%m/%Y", "%Y-%m-%d", "%f/%e/%Y", "%b %e, %Y", "%B %e, %Y",
   "%Y-%m-%d %H:%M:%S", "%Y-%m-%d %I:%M:%S %p", "%d %B %Y", "%b %e, %Y",
   "%H:%M:%S", "%I:%M:%S %p", "%Y-%d.%m. %H:%M", "%Y-%m-%d %H:%M:%S%z"]

/-- The detection loop.  `parses` abstracts the external `time.strptime`
success predicate; it receives the stripped sample (`sample.strip()`) and a
candidate format.  `rawColumn` is column 0; `none` entries model NaN rows
removed by `dropna()`, and `head(20)` keeps the first 20 samples. -/
def detect_date_format (parses : String → String → Bool)
    (rawColumn : List (Option String)) : Option String :=
  ((rawColumn.filterMap id).take 20).findSome?
    (fun sample => date_time_formats.find? (fun f => parses sample.trim f))

/-- Outcome of `profile_csv_to_dataframe` for column 0 after detection: a
matched format containing a year token is applied directly, a year-less match
is applied with the anchor year 2024 prefixed, and no match leaves the column
unparsed. -/
inductive ColParse where
  | parsedWithYear : String → ColParse
  | parsedAnchored2024 : String → ColParse
  | unparsed : ColParse
deriving DecidableEq

def parse_column_action (parses : String → String → Bool)
    (rawColumn : List (Option String)) : ColParse :=
  match detect_date_format parses rawColumn with
  | some fmt =>
      if fmt.contains 'Y' || fmt.contains 'y' then ColParse.parsedWithYear fmt
      else ColParse.parsedAnchored2024 fmt
  | none => ColParse.unparsed

/-! ## Unreadable input files (`profile_csv_to_dataframe`, lines 118-122)

On `FileNotFoundError` the function executes `return pd.DataFrame` — the
class object, with no parentheses — rather than `pd.DataFrame()`.  The sum
type below distinguishes the two possible Python return values. -/

inductive PyReturn where
  | dataFrameClass : PyReturn
  | frame : Frame → PyReturn
deriving DecidableEq

/-- The path-reading head of `profile_csv_to_dataframe`: `readCsv` abstracts
`pd.read_csv(path, header=None)`, with `none` for an unreadable path
(`FileNotFoundError`).  A readable file continues to normal processing and
yields a DataFrame value; an unreadable one hits line 122. -/
def profile_csv_read (readCsv : String → Option Frame) (path : String) : PyReturn :=
  match readCsv path with
  | none => PyReturn.dataFrameClass
  | some df => PyReturn.frame df

/-! ## Rounding (pandas `round`, IEEE half-to-even on the idealised rationals) -/

/-- Round half to even, to an integer. -/
def roundHalfEven (q : ℚ) : ℤ :=
  if q - ⌊q⌋ < 1/2 then ⌊q⌋
  else if 1/2 < q - ⌊q⌋ then ⌊q⌋ + 1
  else if ⌊q⌋ % 2 = 0 then ⌊q⌋ else ⌊q⌋ + 1

/-- `DataFrame.round(3)` entrywise. -/
def round3 (q : ℚ) : ℚ := (roundHalfEven (q * 1000) : ℚ) / 1000

/-- `Series.round(0)` entrywise. -/
def round0 (q : ℚ) : ℚ := (roundHalfEven q : ℚ)

/-- `dataframe.round(3)` over a whole frame. -/
def round3_frame (f : Frame) : Frame := f.map (fun c => ⟨c.name, c.vals.map round3⟩)

/-! ## Substring tests and replacement (Python `in` and `str.replace`) -/

def charsStartWith : List Char → List Char → Bool
  | [], _ => true
  | _ :: _, [] => false
  | a :: as, b :: bs => a == b && charsStartWith as bs

def charsContain (needle : List Char) : List Char → Bool
  | [] => needle.isEmpty
  | h :: t => charsStartWith needle (h :: t) || charsContain needle t

/-- Python `needle in hay.lower()` for an already-lowercase needle literal. -/
def lowerContains (hay needle : String) : Bool :=
  charsContain needle.data (hay.data.map Char.toLower)

def charsReplace (needle repl : List Char) : List Char → List Char
  | [] => []
  | h :: t =>
    if charsStartWith needle (h :: t) ∧ needle ≠ [] then
      repl ++ charsReplace needle repl (List.drop (needle.length - 1) t)
    else
      h :: charsReplace needle repl t
termination_by l => l.length
decreasing_by
  · simp [List.length_drop]
    omega
  · simp

/-- Python `s.replace(needle, repl)` (all occurrences, left to right). -/
def strReplaceAll (s needle repl : String) : String :=
  ⟨charsReplace needle.data repl.data s.data⟩

/-! ## Apartment frames (`add_apartment_consumption` / `calculate_apartment`,
`energy_allocator.py` lines 223-291) -/

/-- One resolved apartment/unit: identifier, allocation weight, and its
aligned consumption series. -/
structure AptData where
  apartment : String
  allocation : ℚ
  cons : List ℚ
deriving DecidableEq, Inhabited

def apt_cons_col (a : AptData) : Col :=
  ⟨apt_consumption_column a.apartment, a.cons⟩

/-- `add_apartment_consumption` assigns each unit's consumption column at the
end of the frame, in resolution order. -/
def add_apartment_cons_frame (base : Frame) (apts : List AptData) : Frame :=
  base ++ apts.map apt_cons_col

/-- `dataframe[name]`: first column with the given name. -/
def findVals (f : Frame) (n : String) : Option (List ℚ) :=
  (f.find? (fun c => c.name == n)).map (fun c => c.vals)

/-- `dataframe.columns.get_loc(name)`. -/
def colIdx (f : Frame) (n : String) : Option Nat :=
  f.findIdx? (fun c => c.name == n)

/-- One iteration of the `calculate_apartment` loop (lines 273-286): look up
the unit's consumption column, the company leftover column and the
fees-price column (a missing column raises KeyError, caught into an empty
result: `none`), compute `after = cons - leftover * allocation` (no clipping)
and `value = fees * (cons - after)`, then insert the two new columns at
`get_loc(consumption)+1` and `get_loc(consumption)+2`. -/
def calculate_apartment_step (f : Frame) (a : AptData) : Option Frame := do
  let i ← colIdx f (apt_consumption_column a.apartment)
  let cons ← findVals f (apt_consumption_column a.apartment)
  let leftover ← findVals f pv_after_company
  let fees ← findVals f spot_price_median_fees
  return (f.insertIdx (i + 1)
      ⟨apt_after_pv_column a.apartment,
        List.zipWith (fun c l => c - l * a.allocation) cons leftover⟩).insertIdx (i + 2)
      ⟨apt_value_column a.apartment,
        List.zipWith (fun pf cv => pf * cv) fees
          (List.zipWith (fun c af => c - af) cons
            (List.zipWith (fun c l => c - l * a.allocation) cons leftover))⟩

/-- The full `calculate_apartment` loop over the resolved units. -/
def calculate_apartment_frame (f : Frame) (apts : List AptData) : Option Frame :=
  apts.foldlM calculate_apartment_step f

/-- Closed forms of the two derived columns of one unit. -/
def apt_after_vals (leftover : List ℚ) (a : AptData) : List ℚ :=
  List.zipWith (fun c l => c - l * a.allocation) a.cons leftover

def apt_value_vals (fees leftover : List ℚ) (a : AptData) : List ℚ :=
  List.zipWith (fun pf cv => pf * cv) fees
    (List.zipWith (fun c af => c - af) a.cons (apt_after_vals leftover a))

/-- The three adjacent columns one unit contributes to the final frame. -/
def apt_block (fees leftover : List ℚ) (a : AptData) : List Col :=
  [⟨apt_consumption_column a.apartment, a.cons⟩,
   ⟨apt_after_pv_column a.apartment, apt_after_vals leftover a⟩,
   ⟨apt_value_column a.apartment, apt_value_vals fees leftover a⟩]

def block_names (a : AptData) : List String :=
  [apt_consumption_column a.apartment, apt_after_pv_column a.apartment,
   apt_value_column a.apartment]

def frame_names (f : Frame) : List String := f.map (fun c => c.name)

/-! ## Grid surplus and summaries (`calculate_pv_over_production`,
`sma_value_sum`, `energy_value_sum`, lines 307-372) -/

/-- `self.profile_df.sum(axis=1)`: the pointwise sum of all unit consumption
series, on the first `n` index positions. -/
def profile_sum_vals (apts : List AptData) (n : Nat) : List ℚ :=
  (List.range n).map (fun i => (apts.map (fun a => a.cons.getD i 0)).sum)

/-- `(production - (company + profile_df.sum(axis=1))).clip(lower=0)`. -/
def pv_over_vals (prod cons : List ℚ) (apts : List AptData) : List ℚ :=
  List.zipWith (fun p s => clip0 (p - s)) prod
    (List.zipWith (fun c u => c + u) cons (profile_sum_vals apts prod.length))

/-- `dataframe[pv_over_production] * dataframe[spot_price_median]`
(the fee-free median). -/
def value_to_grid_vals (med prod cons : List ℚ) (apts : List AptData) : List ℚ :=
  List.zipWith (fun s m => s * m) (pv_over_vals prod cons apts) med

/-- `calculate_pv_over_production`: run the apartment loop, append the two
grid columns, round the whole frame to 3 decimals. -/
def calculate_pv_over_frame (med fees prod cons : List ℚ) (apts : List AptData) :
    Option Frame :=
  (calculate_apartment_frame
      (add_apartment_cons_frame (calculate_company_frame med fees prod cons) apts)
      apts).map
    (fun f => round3_frame
      (f ++ [⟨pv_over_production, pv_over_vals prod cons apts⟩,
             ⟨value_to_grid, value_to_grid_vals med prod cons apts⟩]))

/-- `sma_value_sum` (lines 336-339): per column whose lowercased name contains
"value", the column sum rounded to 0 decimals, in column order. -/
def sma_value_sum (f : Frame) : List (String × ℚ) :=
  (f.filter (fun c => lowerContains c.name "value")).map
    (fun c => (c.name, round0 c.vals.sum))

/-- `energy_value_sum` (lines 358-368): filter the "consumption" and "after"
columns, fail on a count mismatch, then zip the two lists positionally and
sum the per-row differences. -/
def energy_value_sum (f : Frame) : Option (List (String × ℚ)) :=
  if (f.filter (fun c => lowerContains c.name "consumption")).length
      ≠ (f.filter (fun c => lowerContains c.name "after")).length then none
  else some (((f.filter (fun c => lowerContains c.name "consumption")).zip
      (f.filter (fun c => lowerContains c.name "after"))).map (fun p =>
    (strReplaceAll p.1.name "consumption" "consumption covered",
     (List.zipWith (fun b a => b - a) p.1.vals p.2.vals).sum)))

/-! ## Helper lemmas -/

theorem sortQ_sorted (xs : List ℚ) : List.Sorted (· ≤ ·) (sortQ xs) :=
  List.sorted_insertionSort _ xs

theorem sortQ_perm (xs : List ℚ) : List.Perm (sortQ xs) xs :=
  List.perm_insertionSort _ xs

theorem sortQ_length (xs : List ℚ) : (sortQ xs).length = xs.length :=
  List.length_insertionSort _ xs

/-- In a sorted list, every element of `take (j+1)` is at most the j-th element. -/
theorem mem_take_le_getD (s : List ℚ) (hs : List.Sorted (· ≤ ·) s) (j : Nat)
    (hj : j < s.length) (a : ℚ) (ha : a ∈ s.take (j + 1)) : a ≤ s.getD j 0 := by
  obtain ⟨i, hi, hai⟩ := List.mem_iff_getElem.mp ha
  have hlt : i < j + 1 := lt_of_lt_of_le hi (s.length_take_le (j + 1))
  have hij : i < s.length := by
    have h2 := List.length_take (j + 1) s
    omega
  have heq : (s.take (j + 1))[i] = s[i] := List.getElem_take ..
  have hrel : s.get ⟨i, hij⟩ ≤ s.get ⟨j, hj⟩ :=
    hs.rel_get_of_le (by rw [Fin.mk_le_mk]; omega)
  rw [List.getD_eq_getElem _ _ hj]
  rw [heq] at hai
  subst hai
  simpa using hrel

/-- In a sorted list, the j-th element is at most every element of `drop j`. -/
theorem getD_le_mem_drop (s : List ℚ) (hs : List.Sorted (· ≤ ·) s) (j : Nat)
    (hj : j < s.length) (a : ℚ) (ha : a ∈ s.drop j) : s.getD j 0 ≤ a := by
  have hdrop : s.drop j = s.getD j 0 :: s.drop (j + 1) := by
    rw [List.getD_eq_getElem _ _ hj]
    exact List.drop_eq_getElem_cons hj
  rw [hdrop] at ha
  rcases List.mem_cons.mp ha with h | h
  · exact le_of_eq h.symm
  · have hsd : List.Sorted (· ≤ ·) (s.drop j) := hs.drop
    rw [hdrop] at hsd
    exact List.rel_of_sorted_cons hsd a h

/-- If strictly more than `j` elements of a sorted list are `≤ m`, the j-th
element is `≤ m`. -/
theorem sorted_getD_le_of_lt_countP (s : List ℚ) (hs : List.Sorted (· ≤ ·) s) (m : ℚ)
    (j : Nat) (hj : j < s.length)
    (hc : j < s.countP (fun x => decide (x ≤ m))) :
    s.getD j 0 ≤ m := by
  by_contra hlt
  push_neg at hlt
  have hzero : (s.drop j).countP (fun x => decide (x ≤ m)) = 0 := by
    rw [List.countP_eq_zero]
    intro a ha
    have hga : s.getD j 0 ≤ a := getD_le_mem_drop s hs j hj a ha
    simp only [decide_eq_true_eq]
    intro ham
    exact absurd hlt (not_lt.mpr (le_trans hga ham))
  have hle : s.countP (fun x => decide (x ≤ m)) ≤ j := by
    conv_lhs => rw [← List.take_append_drop j s]
    rw [List.countP_append, hzero, Nat.add_zero]
    exact le_trans (List.countP_le_length _) (s.length_take_le j)
  omega

/-- If at least `s.length - j` elements of a sorted list are `≥ m`, the j-th
element is `≥ m`. -/
theorem sorted_le_getD_of_countP (s : List ℚ) (hs : List.Sorted (· ≤ ·) s) (m : ℚ)
    (j : Nat) (hj : j < s.length)
    (hc : s.length - j ≤ s.countP (fun x => decide (m ≤ x))) :
    m ≤ s.getD j 0 := by
  have hdlen : (s.drop (j + 1)).length = s.length - (j + 1) := List.length_drop ..
  have htot : s.countP (fun x => decide (m ≤ x))
      = (s.take (j + 1)).countP (fun x => decide (m ≤ x))
        + (s.drop (j + 1)).countP (fun x => decide (m ≤ x)) := by
    conv_lhs => rw [← List.take_append_drop (j + 1) s]
    exact List.countP_append _ _ _
  have hd : (s.drop (j + 1)).countP (fun x => decide (m ≤ x)) ≤ s.length - (j + 1) :=
    le_trans (List.countP_le_length _) (le_of_eq hdlen)
  have hpos : 0 < (s.take (j + 1)).countP (fun x => decide (m ≤ x)) := by omega
  obtain ⟨a, ha, hpa⟩ := List.countP_pos_iff.mp hpos
  have hma : m ≤ a := by simpa using hpa
  exact le_trans hma (mem_take_le_getD s hs j hj a ha)

/-- In a sorted list, at least `j+1` elements are `≤` the j-th element. -/
theorem succ_le_countP_le_getD (s : List ℚ) (hs : List.Sorted (· ≤ ·) s) (j : Nat)
    (hj : j < s.length) :
    j + 1 ≤ s.countP (fun x => decide (x ≤ s.getD j 0)) := by
  set c := s.getD j 0 with hc
  have hall : (s.take (j + 1)).countP (fun x => decide (x ≤ c))
      = (s.take (j + 1)).length := by
    rw [List.countP_eq_length]
    intro a ha
    simpa [hc] using mem_take_le_getD s hs j hj a ha
  have hlen : (s.take (j + 1)).length = j + 1 := by
    rw [List.length_take]
    omega
  have hsplit : s.countP (fun x => decide (x ≤ c))
      = (s.take (j + 1)).countP (fun x => decide (x ≤ c))
        + (s.drop (j + 1)).countP (fun x => decide (x ≤ c)) := by
    conv_lhs => rw [← List.take_append_drop (j + 1) s]
    exact List.countP_append _ _ _
  omega

/-- In a sorted list, at least `s.length - j` elements are `≥` the j-th element. -/
theorem sub_le_countP_getD_le (s : List ℚ) (hs : List.Sorted (· ≤ ·) s) (j : Nat)
    (hj : j < s.length) :
    s.length - j ≤ s.countP (fun x => decide (s.getD j 0 ≤ x)) := by
  set c := s.getD j 0 with hc
  have hall : (s.drop j).countP (fun x => decide (c ≤ x))
      = (s.drop j).length := by
    rw [List.countP_eq_length]
    intro a ha
    simpa [hc] using getD_le_mem_drop s hs j hj a ha
  have hlen : (s.drop j).length = s.length - j := List.length_drop ..
  have hsplit : s.countP (fun x => decide (c ≤ x))
      = (s.take j).countP (fun x => decide (c ≤ x))
        + (s.drop j).countP (fun x => decide (c ≤ x)) := by
    conv_lhs => rw [← List.take_append_drop j s]
    exact List.countP_append _ _ _
  omega

/-- Counting in the sorted augmented list: appending `m` adds one to the count
of any predicate respecting `m`, modulo sorting. -/
theorem countP_sortQ_append (xs : List ℚ) (m : ℚ) (p : ℚ → Bool) :
    (sortQ (xs ++ [m])).countP p
      = (sortQ xs).countP p + (if p m then 1 else 0) := by
  have h1 := (sortQ_perm (xs ++ [m])).countP_eq p
  have h2 := (sortQ_perm xs).countP_eq p
  rw [h1, List.countP_append p, h2]
  simp [List.countP_cons]

/-- Key lemma: appending the median of a list to the list leaves the median
unchanged.  This is why the fees column, computed as a second `median(axis=1)`
after the raw-median column was added, still equals the raw median. -/
theorem median_append_self (xs : List ℚ) (m : ℚ) (hm : median xs = some m) :
    median (xs ++ [m]) = some m := by
  have hn0 : xs.length ≠ 0 := by
    intro h
    rw [median, if_pos h] at hm
    exact Option.noConfusion hm
  have hs' : List.Sorted (· ≤ ·) (sortQ (xs ++ [m])) := sortQ_sorted _
  have hs : List.Sorted (· ≤ ·) (sortQ xs) := sortQ_sorted _
  have hlen' : (sortQ (xs ++ [m])).length = xs.length + 1 := by
    rw [sortQ_length, List.length_append, List.length_singleton]
  have hlen : (sortQ xs).length = xs.length := sortQ_length xs
  rcases Nat.even_or_odd xs.length with he | ho
  · -- even count n = 2t, t ≥ 1: m is the mean of elements t-1 and t
    obtain ⟨t, ht⟩ := he
    have ht2 : xs.length = 2 * t := by omega
    have htpos : 1 ≤ t := by omega
    have hmod : xs.length % 2 = 0 := by omega
    have hdiv : xs.length / 2 = t := by omega
    rw [median, if_neg hn0, if_neg (by omega), hdiv] at hm
    have hmval : m = ((sortQ xs).getD (t - 1) 0 + (sortQ xs).getD t 0) / 2 :=
      (Option.some.injEq _ _ ▸ hm).symm
    have hjt : t < (sortQ xs).length := by omega
    have hjt1 : t - 1 < (sortQ xs).length := by omega
    have hadj : (sortQ xs).getD (t - 1) 0 ≤ (sortQ xs).getD t 0 := by
      have := hs.rel_get_of_le
        (a := (⟨t - 1, hjt1⟩ : Fin (sortQ xs).length))
        (b := (⟨t, hjt⟩ : Fin (sortQ xs).length))
        (by rw [Fin.mk_le_mk]; omega)
      rw [List.getD_eq_getElem _ _ hjt1, List.getD_eq_getElem _ _ hjt]
      simpa using this
    have hm1 : (sortQ xs).getD (t - 1) 0 ≤ m := by rw [hmval]; linarith
    have hm2 : m ≤ (sortQ xs).getD t 0 := by rw [hmval]; linarith
    -- counts in sortQ xs
    have hc1 : t ≤ (sortQ xs).countP (fun x => decide (x ≤ m)) := by
      have hbase := succ_le_countP_le_getD (sortQ xs) hs (t - 1) hjt1
      have hmono : (sortQ xs).countP (fun x => decide (x ≤ (sortQ xs).getD (t - 1) 0))
          ≤ (sortQ xs).countP (fun x => decide (x ≤ m)) := by
        refine List.countP_mono_left ?_
        intro a _ hpa
        simp only [decide_eq_true_eq] at hpa ⊢
        exact le_trans hpa hm1
      omega
    have hc2 : t ≤ (sortQ xs).countP (fun x => decide (m ≤ x)) := by
      have hbase := sub_le_countP_getD_le (sortQ xs) hs t hjt
      have hmono : (sortQ xs).countP (fun x => decide ((sortQ xs).getD t 0 ≤ x))
          ≤ (sortQ xs).countP (fun x => decide (m ≤ x)) := by
        refine List.countP_mono_left ?_
        intro a _ hpa
        simp only [decide_eq_true_eq] at hpa ⊢
        exact le_trans hm2 hpa
      omega
    -- counts in the augmented sorted list
    have hc1' : t + 1 ≤ (sortQ (xs ++ [m])).countP (fun x => decide (x ≤ m)) := by
      rw [countP_sortQ_append]
      simp only [decide_eq_true_eq, le_refl, if_pos]
      omega
    have hc2' : t + 1 ≤ (sortQ (xs ++ [m])).countP (fun x => decide (m ≤ x)) := by
      rw [countP_sortQ_append]
      simp only [decide_eq_true_eq, le_refl, if_pos]
      omega
    have hjt' : t < (sortQ (xs ++ [m])).length := by omega
    have hup : (sortQ (xs ++ [m])).getD t 0 ≤ m :=
      sorted_getD_le_of_lt_countP _ hs' m t hjt' (by omega)
    have hdown : m ≤ (sortQ (xs ++ [m])).getD t 0 :=
      sorted_le_getD_of_countP _ hs' m t hjt' (by omega)
    have heqm : (sortQ (xs ++ [m])).getD t 0 = m := le_antisymm hup hdown
    rw [median, if_neg (by simp), if_pos (by simp [List.length_append]; omega)]
    rw [show (xs ++ [m]).length / 2 = t by simp [List.length_append]; omega]
    rw [heqm]
  · -- odd count n = 2t+1: m is element t
    obtain ⟨t, ht⟩ := ho
    have hmod : xs.length % 2 = 1 := by omega
    have hdiv : xs.length / 2 = t := by omega
    rw [median, if_neg hn0, if_pos hmod, hdiv] at hm
    have hmval : m = (sortQ xs).getD t 0 := (Option.some.injEq _ _ ▸ hm).symm
    have hjt : t < (sortQ xs).length := by omega
    have hc1 : t + 1 ≤ (sortQ xs).countP (fun x => decide (x ≤ m)) := by
      rw [hmval]
      exact succ_le_countP_le_getD (sortQ xs) hs t hjt
    have hc2 : t + 1 ≤ (sortQ xs).countP (fun x => decide (m ≤ x)) := by
      rw [hmval]
      have := sub_le_countP_getD_le (sortQ xs) hs t hjt
      omega
    have hc1' : t + 2 ≤ (sortQ (xs ++ [m])).countP (fun x => decide (x ≤ m)) := by
      rw [countP_sortQ_append]
      simp only [decide_eq_true_eq, le_refl, if_pos]
      omega
    have hc2' : t + 2 ≤ (sortQ (xs ++ [m])).countP (fun x => decide (m ≤ x)) := by
      rw [countP_sortQ_append]
      simp only [decide_eq_true_eq, le_refl, if_pos]
      omega
    have hjt' : t < (sortQ (xs ++ [m])).length := by omega
    have hjt1' : t + 1 < (sortQ (xs ++ [m])).length := by omega
    have he1 : (sortQ (xs ++ [m])).getD t 0 = m :=
      le_antisymm
        (sorted_getD_le_of_lt_countP _ hs' m t hjt' (by omega))
        (sorted_le_getD_of_countP _ hs' m t hjt' (by omega))
    have he2 : (sortQ (xs ++ [m])).getD (t + 1) 0 = m :=
      le_antisymm
        (sorted_getD_le_of_lt_countP _ hs' m (t + 1) hjt1' (by omega))
        (sorted_le_getD_of_countP _ hs' m (t + 1) hjt1' (by omega))
    rw [median, if_neg (by simp), if_neg (by simp [List.length_append]; omega)]
    rw [show (xs ++ [m]).length / 2 = t + 1 by simp [List.length_append]; omega]
    rw [show t + 1 - 1 = t by omega, he1, he2]
    norm_num

theorem getD_zipWith (f : ℚ → ℚ → ℚ) (as bs : List ℚ) (i : Nat)
    (h1 : i < as.length) (h2 : i < bs.length) :
    (List.zipWith f as bs).getD i 0 = f (as.getD i 0) (bs.getD i 0) := by
  induction as generalizing bs i with
  | nil => simp at h1
  | cons a as ih =>
    cases bs with
    | nil => simp at h2
    | cons b bs =>
      cases i with
      | zero => rfl
      | succ n =>
        simp only [List.zipWith_cons_cons, List.getD_cons_succ]
        exact ih bs n (Nat.lt_of_succ_lt_succ h1) (Nat.lt_of_succ_lt_succ h2)

theorem length_company_after (prod cons : List ℚ) (hp : prod.length = cons.length) :
    (company_after_vals prod cons).length = cons.length := by
  simp [company_after_vals, hp]

theorem length_flatMap_replicate (specs : List AptSpec) :
    (specs.flatMap fun s => List.replicate s.amount s).length = amountSum specs := by
  induction specs with
  | nil => rfl
  | cons s rest ih =>
    simp [List.flatMap_cons, amountSum] at ih ⊢
    exact ih

theorem amountSum_cons (s : AptSpec) (rest : List AptSpec) :
    amountSum (s :: rest) = s.amount + amountSum rest := by
  simp [amountSum]

theorem flatMap_replicate_getD (specs : List AptSpec) (j k : Nat)
    (hj : j < specs.length) (hk : k < (specs.getD j default).amount) :
    (specs.flatMap fun s => List.replicate s.amount s).getD
        (amountSum (specs.take j) + k) default
      = specs.getD j default := by
  induction specs generalizing j with
  | nil => simp at hj
  | cons s rest ih =>
    cases j with
    | zero =>
      have hk0 : k < s.amount := by simpa using hk
      rw [List.flatMap_cons]
      simp only [List.take_zero]
      have hz : amountSum ([] : List AptSpec) + k = k := by simp [amountSum]
      rw [hz, List.getD_append _ _ _ _ (by simpa using hk0),
        List.getD_eq_getElem _ _ (by simpa using hk0), List.getElem_replicate]
      rfl
    | succ j =>
      have hj1 : j < rest.length := Nat.lt_of_succ_lt_succ hj
      have hk1 : k < (rest.getD j default).amount := by simpa using hk
      rw [List.flatMap_cons]
      have ht : amountSum ((s :: rest).take (j + 1))
          = s.amount + amountSum (rest.take j) := by
        simp [amountSum, List.take_succ_cons]
      rw [ht, List.getD_append_right _ _ _ _ (by simp; omega)]
      simp only [List.length_replicate]
      have hsub : s.amount + amountSum (rest.take j) + k - s.amount
          = amountSum (rest.take j) + k := by omega
      rw [hsub, List.getD_cons_succ]
      exact ih j hj1 hk1

theorem amountSum_take_add_lt (specs : List AptSpec) (j k : Nat)
    (hj : j < specs.length) (hk : k < (specs.getD j default).amount) :
    amountSum (specs.take j) + k < amountSum specs := by
  induction specs generalizing j with
  | nil => simp at hj
  | cons s rest ih =>
    cases j with
    | zero =>
      have hk0 : k < s.amount := by simpa using hk
      simp only [List.take_zero]
      rw [amountSum_cons]
      have : amountSum ([] : List AptSpec) = 0 := by simp [amountSum]
      omega
    | succ j =>
      have hj1 : j < rest.length := Nat.lt_of_succ_lt_succ hj
      have hk1 : k < (rest.getD j default).amount := by simpa using hk
      have := ih j hj1 hk1
      rw [List.take_succ_cons, amountSum_cons, amountSum_cons]
      omega

theorem enum_map_getD (l : List AptSpec) (g : Nat × AptSpec → String × ℚ × String)
    (n : Nat) (hn : n < l.length) :
    ((l.enum).map g).getD n default = g (n, l.getD n default) := by
  have h2 : n < (l.enum.map g).length := by simpa using hn
  rw [List.getD_eq_getElem _ _ h2, List.getElem_map, List.getElem_enum,
    List.getD_eq_getElem _ _ hn]

theorem find?_eq_some_split {α : Type} (p : α → Bool) (l : List α) (a : α)
    (h : l.find? p = some a) :
    ∃ l1 l2, l = l1 ++ a :: l2 ∧ p a = true ∧ ∀ x ∈ l1, p x = false := by
  induction l with
  | nil => simp at h
  | cons b t ih =>
    cases hb : p b with
    | true =>
      rw [List.find?_cons_of_pos _ hb] at h
      have hba : b = a := by injection h
      subst hba
      exact ⟨[], t, rfl, hb, by simp⟩
    | false =>
      rw [List.find?_cons_of_neg _ (by simp [hb])] at h
      obtain ⟨l1, l2, hl, hpa, hall⟩ := ih h
      refine ⟨b :: l1, l2, by rw [hl]; rfl, hpa, ?_⟩
      intro x hx
      rcases List.mem_cons.mp hx with hx1 | hx2
      · rw [hx1]; exact hb
      · exact hall x hx2

theorem findSome?_eq_some_first {α β : Type} (g : α → Option β) (l : List α) (b : β)
    (h : l.findSome? g = some b) :
    ∃ k, ∃ hk : k < l.length, g (l.get ⟨k, hk⟩) = some b ∧
      ∀ j, ∀ hj : j < l.length, j < k → g (l.get ⟨j, hj⟩) = none := by
  induction l with
  | nil => simp [List.findSome?] at h
  | cons a t ih =>
    cases ha : g a with
    | some b0 =>
      rw [List.findSome?_cons, ha] at h
      simp only [] at h
      refine ⟨0, Nat.succ_pos _, ?_, ?_⟩
      · show g a = some b
        rw [ha]; exact h
      · intro j hj hj0
        exact absurd hj0 (Nat.not_lt_zero j)
    | none =>
      rw [List.findSome?_cons, ha] at h
      simp only [] at h
      obtain ⟨k, hk, hgk, hprev⟩ := ih h
      refine ⟨k + 1, Nat.succ_lt_succ hk, ?_, ?_⟩
      · exact hgk
      · intro j hj hjk
        cases j with
        | zero => exact ha
        | succ j0 =>
          exact hprev j0 (Nat.lt_of_succ_lt_succ hj) (Nat.lt_of_succ_lt_succ hjk)

theorem roundHalfEven_bounds (q : ℚ) :
    ⌊q⌋ ≤ roundHalfEven q ∧ roundHalfEven q ≤ ⌊q⌋ + 1 := by
  unfold roundHalfEven
  split_ifs <;> omega

theorem roundHalfEven_nonneg (q : ℚ) (h : 0 ≤ q) : 0 ≤ roundHalfEven q := by
  have h0 : (0 : ℤ) ≤ ⌊q⌋ := Int.floor_nonneg.mpr h
  have := (roundHalfEven_bounds q).1
  omega

theorem roundHalfEven_mono (q r : ℚ) (h : q ≤ r) :
    roundHalfEven q ≤ roundHalfEven r := by
  have hf : ⌊q⌋ ≤ ⌊r⌋ := Int.floor_le_floor h
  rcases lt_or_eq_of_le hf with hlt | heq
  · have h1 := (roundHalfEven_bounds q).2
    have h2 := (roundHalfEven_bounds r).1
    omega
  · have hqr : q - (⌊q⌋ : ℚ) ≤ r - (⌊q⌋ : ℚ) := by linarith
    unfold roundHalfEven
    rw [← heq]
    split_ifs <;> first | omega | linarith

theorem round3_nonneg (q : ℚ) (h : 0 ≤ q) : 0 ≤ round3 q := by
  unfold round3
  have h1 := roundHalfEven_nonneg (q * 1000) (by linarith)
  have h2 : (0 : ℚ) ≤ (roundHalfEven (q * 1000) : ℚ) := by exact_mod_cast h1
  linarith

theorem round3_mono (q r : ℚ) (h : q ≤ r) : round3 q ≤ round3 r := by
  unfold round3
  have h1 := roundHalfEven_mono (q * 1000) (r * 1000) (by linarith)
  have h2 : ((roundHalfEven (q * 1000) : ℚ)) ≤ (roundHalfEven (r * 1000) : ℚ) := by
    exact_mod_cast h1
  linarith

theorem find?_append_some {α : Type} (p : α → Bool) (l1 l2 : List α) (c : α)
    (h : l1.find? p = some c) : (l1 ++ l2).find? p = some c := by
  rw [List.find?_append, h]
  rfl

theorem find?_append_none {α : Type} (p : α → Bool) (l1 l2 : List α)
    (h : l1.find? p = none) : (l1 ++ l2).find? p = l2.find? p := by
  rw [List.find?_append, h]
  rfl

theorem findIdx?_go (p : Col → Bool) (l1 : List Col) (l2 : List Col) (c : Col)
    (h : ∀ x ∈ l1, p x = false) (hc : p c = true) :
    ∀ i : Nat, List.findIdx? p (l1 ++ c :: l2) i = some (i + l1.length) := by
  induction l1 with
  | nil =>
    intro i
    rw [List.nil_append, List.findIdx?_cons, if_pos hc]
    simp
  | cons b t ih =>
    intro i
    have hb : p b = false := h b (List.mem_cons_self ..)
    rw [List.cons_append, List.findIdx?_cons, if_neg (by simp [hb])]
    rw [ih (fun x hx => h x (List.mem_cons_of_mem _ hx)) (i + 1)]
    congr 1
    simp only [List.length_cons]
    omega

theorem insertIdx_append1 (l1 : Frame) (a x : Col) (t : Frame) :
    (l1 ++ a :: t).insertIdx (l1.length + 1) x = l1 ++ a :: x :: t := by
  induction l1 with
  | nil => rfl
  | cons b l ih =>
    have hlen : (b :: l).length + 1 = (l.length + 1) + 1 := by simp
    rw [List.cons_append, hlen, List.insertIdx_succ_cons, ih, List.cons_append]

theorem insertIdx_append2 (l1 : Frame) (a x y : Col) (t : Frame) :
    (l1 ++ a :: x :: t).insertIdx (l1.length + 2) y = l1 ++ a :: x :: y :: t := by
  induction l1 with
  | nil => rfl
  | cons b l ih =>
    have hlen : (b :: l).length + 2 = (l.length + 2) + 1 := by simp
    rw [List.cons_append, hlen, List.insertIdx_succ_cons, ih, List.cons_append]

theorem frame_names_append (f g : Frame) :
    frame_names (f ++ g) = frame_names f ++ frame_names g := List.map_append ..

theorem mem_frame_names (f : Frame) (x : Col) (hx : x ∈ f) : x.name ∈ frame_names f :=
  List.mem_map_of_mem _ hx

/-- Main fold characterization: starting from a base frame that already holds
the fees column and the company leftover column, and whose names do not clash
with the unit column names, the `calculate_apartment` loop rewrites
`base ++ (consumption columns)` into `base ++ (per-unit three-column blocks)`,
each block sitting exactly where its consumption column was. -/
theorem calculate_apartment_fold_eq (fees leftover : List ℚ) (apts : List AptData) :
    ∀ base : Frame,
    base.find? (fun c => c.name == spot_price_median_fees)
      = some ⟨spot_price_median_fees, fees⟩ →
    base.find? (fun c => c.name == pv_after_company)
      = some ⟨pv_after_company, leftover⟩ →
    (frame_names base ++ apts.flatMap block_names).Nodup →
    calculate_apartment_frame (base ++ apts.map apt_cons_col) apts
      = some (base ++ apts.flatMap (apt_block fees leftover)) := by
  induction apts with
  | nil =>
    intro base hfees hleft hnodup
    simp [calculate_apartment_frame, List.foldlM]
  | cons a rest ih =>
    intro base hfees hleft hnodup
    have hnot : apt_consumption_column a.apartment ∉ frame_names base := by
      rw [List.nodup_append] at hnodup
      intro hmem
      refine hnodup.2.2 hmem ?_
      rw [List.flatMap_cons]
      exact List.mem_append_left _ (List.mem_cons_self ..)
    have hpredbase : ∀ x ∈ base,
        (x.name == apt_consumption_column a.apartment) = false := by
      intro x hx
      rw [beq_eq_false_iff_ne]
      intro hxeq
      exact hnot (hxeq ▸ mem_frame_names base x hx)
    have hpredcons : (fun (c : Col) => c.name == apt_consumption_column a.apartment)
        (apt_cons_col a) = true := by
      simp [apt_cons_col]
    have hcolIdx : colIdx (base ++ apt_cons_col a :: rest.map apt_cons_col)
        (apt_consumption_column a.apartment) = some base.length := by
      rw [colIdx]
      rw [findIdx?_go _ base (rest.map apt_cons_col) (apt_cons_col a) hpredbase hpredcons 0]
      simp
    have hfindbase : base.find? (fun c => c.name == apt_consumption_column a.apartment)
        = none := by
      rw [List.find?_eq_none]
      intro x hx
      simp [hpredbase x hx]
    have hconsv : findVals (base ++ apt_cons_col a :: rest.map apt_cons_col)
        (apt_consumption_column a.apartment) = some a.cons := by
      rw [findVals, find?_append_none _ _ _ hfindbase,
        List.find?_cons_of_pos (p := fun (c : Col) => c.name == apt_consumption_column a.apartment)
          _ hpredcons]
      rfl
    have hleftv : findVals (base ++ apt_cons_col a :: rest.map apt_cons_col)
        pv_after_company = some leftover := by
      rw [findVals, find?_append_some _ _ _ _ hleft]
      rfl
    have hfeesv : findVals (base ++ apt_cons_col a :: rest.map apt_cons_col)
        spot_price_median_fees = some fees := by
      rw [findVals, find?_append_some _ _ _ _ hfees]
      rfl
    have hstep : calculate_apartment_step
        (base ++ apt_cons_col a :: rest.map apt_cons_col) a
        = some ((base ++ apt_block fees leftover a) ++ rest.map apt_cons_col) := by
      rw [calculate_apartment_step, hcolIdx, hconsv, hleftv, hfeesv]
      simp only [Option.bind_eq_bind, Option.some_bind]
      rw [insertIdx_append1, insertIdx_append2]
      simp [apt_block, apt_after_vals, apt_value_vals, apt_cons_col, List.append_assoc]
    have hrw : calculate_apartment_frame
        (base ++ apt_cons_col a :: rest.map apt_cons_col) (a :: rest)
        = calculate_apartment_frame
            ((base ++ apt_block fees leftover a) ++ rest.map apt_cons_col) rest := by
      rw [calculate_apartment_frame, List.foldlM_cons, hstep]
      rfl
    have hfees2 : (base ++ apt_block fees leftover a).find?
        (fun c => c.name == spot_price_median_fees)
        = some ⟨spot_price_median_fees, fees⟩ := find?_append_some _ _ _ _ hfees
    have hleft2 : (base ++ apt_block fees leftover a).find?
        (fun c => c.name == pv_after_company)
        = some ⟨pv_after_company, leftover⟩ := find?_append_some _ _ _ _ hleft
    have hnames2 : frame_names (base ++ apt_block fees leftover a)
        = frame_names base ++ block_names a := by
      rw [frame_names_append]
      rfl
    have hnodup2 : (frame_names (base ++ apt_block fees leftover a)
        ++ rest.flatMap block_names).Nodup := by
      rw [hnames2, List.append_assoc]
      rwa [List.flatMap_cons] at hnodup
    have hmap : (a :: rest).map apt_cons_col = apt_cons_col a :: rest.map apt_cons_col :=
      rfl
    rw [hmap, hrw, ih _ hfees2 hleft2 hnodup2]
    simp [List.flatMap_cons, List.append_assoc]

theorem filter_col_neg (n : String) (v : List ℚ) (nd : String) (t : Frame)
    (h : lowerContains n nd = false) :
    List.filter (fun c => lowerContains c.name nd) ((⟨n, v⟩ : Col) :: t)
      = List.filter (fun c => lowerContains c.name nd) t := by
  rw [List.filter_cons_of_neg]
  simp [h]

theorem filter_col_pos (n : String) (v : List ℚ) (nd : String) (t : Frame)
    (h : lowerContains n nd = true) :
    List.filter (fun c => lowerContains c.name nd) ((⟨n, v⟩ : Col) :: t)
      = ⟨n, v⟩ :: List.filter (fun c => lowerContains c.name nd) t := by
  rw [List.filter_cons_of_pos]
  simp [h]

theorem round3_frame_cons (c : Col) (t : Frame) :
    round3_frame (c :: t) = ⟨c.name, c.vals.map round3⟩ :: round3_frame t := rfl

theorem filter_round3_frame (f : Frame) (nd : String) :
    (round3_frame f).filter (fun c => lowerContains c.name nd)
      = round3_frame (f.filter (fun c => lowerContains c.name nd)) := by
  induction f with
  | nil => rfl
  | cons c t ih =>
    by_cases h : lowerContains c.name nd = true
    · rw [round3_frame_cons, filter_col_pos _ _ _ _ h, filter_col_pos _ _ _ _ h,
        round3_frame_cons, ih]
    · have hf : lowerContains c.name nd = false := by
        simpa using h
      rw [round3_frame_cons, filter_col_neg _ _ _ _ hf, filter_col_neg _ _ _ _ hf, ih]

theorem filter_flatMap_block (fees L : List ℚ) (apts : List AptData) (p : Col → Bool)
    (sel : AptData → List Col)
    (hsel : ∀ a ∈ apts, (apt_block fees L a).filter p = sel a) :
    (apts.flatMap (apt_block fees L)).filter p = apts.flatMap sel := by
  induction apts with
  | nil => rfl
  | cons a rest ih =>
    rw [List.flatMap_cons, List.flatMap_cons, List.filter_append,
      hsel a (List.mem_cons_self ..),
      ih (fun x hx => hsel x (List.mem_cons_of_mem _ hx))]

theorem flatMap_single_map {α β : Type} (l : List α) (f : α → β) :
    l.flatMap (fun x => [f x]) = l.map f := by
  induction l with
  | nil => rfl
  | cons a t ih => simp [List.flatMap_cons, ih]

theorem filter_triple_first (c1 c2 c3 : Col) (p : Col → Bool)
    (h1 : p c1 = true) (h2 : p c2 = false) (h3 : p c3 = false) :
    List.filter p [c1, c2, c3] = [c1] := by
  rw [List.filter_cons_of_pos h1, List.filter_cons_of_neg (by simp [h2]),
    List.filter_cons_of_neg (by simp [h3]), List.filter_nil]

theorem filter_triple_second (c1 c2 c3 : Col) (p : Col → Bool)
    (h1 : p c1 = false) (h2 : p c2 = true) (h3 : p c3 = false) :
    List.filter p [c1, c2, c3] = [c2] := by
  rw [List.filter_cons_of_neg (by simp [h1]), List.filter_cons_of_pos h2,
    List.filter_cons_of_neg (by simp [h3]), List.filter_nil]

theorem filter_triple_third (c1 c2 c3 : Col) (p : Col → Bool)
    (h1 : p c1 = false) (h2 : p c2 = false) (h3 : p c3 = true) :
    List.filter p [c1, c2, c3] = [c3] := by
  rw [List.filter_cons_of_neg (by simp [h1]), List.filter_cons_of_neg (by simp [h2]),
    List.filter_cons_of_pos h3, List.filter_nil]

theorem company_filter_consumption (med fees prod cons : List ℚ) :
    (calculate_company_frame med fees prod cons).filter
      (fun c => lowerContains c.name "consumption") = [⟨company_column, cons⟩] := by
  rw [calculate_company_frame]
  rw [filter_col_neg _ _ _ _ (by decide), filter_col_neg _ _ _ _ (by decide),
    filter_col_neg _ _ _ _ (by decide), filter_col_pos _ _ _ _ (by decide),
    filter_col_neg _ _ _ _ (by decide), filter_col_neg _ _ _ _ (by decide),
    filter_col_neg _ _ _ _ (by decide), List.filter_nil]

theorem company_filter_after (med fees prod cons : List ℚ) :
    (calculate_company_frame med fees prod cons).filter
      (fun c => lowerContains c.name "after")
      = [⟨company_after_pv, company_after_vals prod cons⟩] := by
  rw [calculate_company_frame]
  rw [filter_col_neg _ _ _ _ (by decide), filter_col_neg _ _ _ _ (by decide),
    filter_col_neg _ _ _ _ (by decide), filter_col_neg _ _ _ _ (by decide),
    filter_col_pos _ _ _ _ (by decide), filter_col_neg _ _ _ _ (by decide),
    filter_col_neg _ _ _ _ (by decide), List.filter_nil]

theorem company_filter_value (med fees prod cons : List ℚ) :
    (calculate_company_frame med fees prod cons).filter
      (fun c => lowerContains c.name "value")
      = [⟨value_after_subtraction, company_value_vals fees prod cons⟩] := by
  rw [calculate_company_frame]
  rw [filter_col_neg _ _ _ _ (by decide), filter_col_neg _ _ _ _ (by decide),
    filter_col_neg _ _ _ _ (by decide), filter_col_neg _ _ _ _ (by decide),
    filter_col_neg _ _ _ _ (by decide), filter_col_pos _ _ _ _ (by decide),
    filter_col_neg _ _ _ _ (by decide), List.filter_nil]

theorem sma_entries_int (f : Frame) (e : String × ℚ) (he : e ∈ sma_value_sum f) :
    ∃ z : ℤ, e.2 = (z : ℚ) := by
  rw [sma_value_sum] at he
  obtain ⟨c, hc, hce⟩ := List.mem_map.mp he
  exact ⟨roundHalfEven c.vals.sum, by rw [← hce]; rfl⟩

/-! ## Claim theorems -/

/-- C1: counterexample.  A cache covering years 2021-2022 inside the window
2020-2023 is missing both a leading range (2020) and a trailing range (2023).
The claim says the single fetch repairs the leading gap (2020 .. 2020); the
code's first branch fires on the trailing gap and fetches (2023 .. 2023). -/
theorem c1_leading_gap_counterexample :
    update_cache_fetch 2021 2022 2020 2023 = some (2023, 2023) ∧
    update_cache_fetch 2021 2022 2020 2023 ≠ some (2020, 2020) := by
  constructor <;> decide

/-- C1 (amended): when `spot_get_price` finds an existing cache missing both a
leading range (`startYear < cacheMinYear`) and a trailing range
(`cacheMaxYear < endYear`), the call performs exactly one external fetch,
covering the one contiguous trailing gap (`cacheMaxYear+1 .. endYear`): the
trailing-gap check takes precedence over the leading-gap check. -/
theorem c1_single_fetch_trailing_gap (cMin cMax s e : Int)
    (hlead : s < cMin) (htrail : cMax < e) :
    spot_get_price_fetches cMin cMax s e = [(cMax + 1, e)] ∧
    (spot_get_price_fetches cMin cMax s e).length = 1 := by
  unfold spot_get_price_fetches update_cache_fetch
  rw [if_pos htrail]
  exact ⟨rfl, rfl⟩

/-- C1 witness: the amended theorem applied at the counterexample's input. -/
theorem c1_single_fetch_trailing_gap_witness :
    spot_get_price_fetches 2021 2022 2020 2023 = [(2023, 2023)] ∧
    (spot_get_price_fetches 2021 2022 2020 2023).length = 1 :=
  c1_single_fetch_trailing_gap 2021 2022 2020 2023 (by decide) (by decide)

/-- C2: after `calculate_company`, each row of the returned frame satisfies
`after = max(cons - prod, 0)`, `value = fees * (cons - after)`,
`pv_leftover = max(prod - cons, 0)`; consequently
`prod = min(prod, cons) + pv_leftover` holds in every row, and whenever
`0 ≤ prod` and `0 ≤ cons` the covered energy `cons - after` lies in
`[0, cons]`. -/
theorem c2_company_balance (med fees prod cons : List ℚ)
    (hp : prod.length = cons.length) (hf : fees.length = cons.length)
    (i : Nat) (hi : i < cons.length) :
    (company_after_vals prod cons).getD i 0
      = max (cons.getD i 0 - prod.getD i 0) 0 ∧
    (company_value_vals fees prod cons).getD i 0
      = fees.getD i 0 * (cons.getD i 0 - (company_after_vals prod cons).getD i 0) ∧
    (pv_after_company_vals prod cons).getD i 0
      = max (prod.getD i 0 - cons.getD i 0) 0 ∧
    prod.getD i 0
      = min (prod.getD i 0) (cons.getD i 0) + (pv_after_company_vals prod cons).getD i 0 ∧
    (0 ≤ prod.getD i 0 → 0 ≤ cons.getD i 0 →
      0 ≤ cons.getD i 0 - (company_after_vals prod cons).getD i 0 ∧
      cons.getD i 0 - (company_after_vals prod cons).getD i 0 ≤ cons.getD i 0) := by
  have hip : i < prod.length := hp ▸ hi
  have hif : i < fees.length := hf ▸ hi
  have hafter : (company_after_vals prod cons).getD i 0
      = max (cons.getD i 0 - prod.getD i 0) 0 := by
    unfold company_after_vals
    rw [getD_zipWith _ _ _ _ hi hip]
    rfl
  have hia : i < (company_after_vals prod cons).length := by
    rw [length_company_after prod cons hp]; exact hi
  have hcov : i < (List.zipWith (fun c a => c - a) cons (company_after_vals prod cons)).length := by
    simp [List.length_zipWith, length_company_after prod cons hp]
    omega
  refine ⟨hafter, ?_, ?_, ?_, ?_⟩
  · unfold company_value_vals
    rw [getD_zipWith _ _ _ _ hif hcov, getD_zipWith _ _ _ _ hi hia]
  · unfold pv_after_company_vals
    rw [getD_zipWith _ _ _ _ hip hi]
    rfl
  · unfold pv_after_company_vals
    rw [getD_zipWith _ _ _ _ hip hi]
    unfold clip0
    rcases le_total (prod.getD i 0) (cons.getD i 0) with h | h
    · rw [min_eq_left h, max_eq_right (by linarith)]; ring
    · rw [min_eq_right h, max_eq_left (by linarith)]; ring
  · intro hp0 hc0
    rw [hafter]
    rcases le_total (cons.getD i 0) (prod.getD i 0) with h | h
    · rw [max_eq_right (by linarith)]
      constructor <;> linarith
    · rw [max_eq_left (by linarith)]
      constructor <;> linarith

/-- C2 witness: concrete four-hour series (the spec's end-to-end scenario). -/
theorem c2_company_balance_witness :
    (company_after_vals [10, 10, 10, 10] [4, 4, 4, 4]).getD 0 0
      = max ((4 : ℚ) - 10) 0 ∧
    (company_value_vals [5, 5, 5, 5] [10, 10, 10, 10] [4, 4, 4, 4]).getD 0 0
      = 5 * ((4 : ℚ) - (company_after_vals [10, 10, 10, 10] [4, 4, 4, 4]).getD 0 0) ∧
    (pv_after_company_vals [10, 10, 10, 10] [4, 4, 4, 4]).getD 0 0
      = max ((10 : ℚ) - 4) 0 := by
  have h := c2_company_balance [5, 5, 5, 5] [5, 5, 5, 5] [10, 10, 10, 10] [4, 4, 4, 4]
    (by decide) (by decide) 0 (by decide)
  have h2 := c2_company_balance [5, 5, 5, 5] [5, 5, 5, 5] [10, 10, 10, 10] [4, 4, 4, 4]
    (by decide) (by decide) 0 (by decide)
  refine ⟨?_, ?_, ?_⟩
  · simpa using h.1
  · simpa using h.2.1
  · simpa using h.2.2.1
/-- C6: in "by type" mode, a spec with replication count n and weight w expands
into n units, each with weight w/n; expansion follows input list order and unit
identifiers carry one global counter starting at 1 that runs continuously
across all expanded instances: the k-th copy of the j-th spec sits at global
position `amountSum (take j) + k` and is named with counter value
`amountSum (take j) + k + 1`. -/
theorem c6_by_type_expansion (specs : List AptSpec) (j k : Nat)
    (hj : j < specs.length) (hk : k < (specs.getD j default).amount) :
    (add_apartment_by_type specs).length = amountSum specs ∧
    (add_apartment_by_type specs).getD (amountSum (specs.take j) + k) default
      = ((specs.getD j default).apartment ++ toString (amountSum (specs.take j) + k + 1),
         (specs.getD j default).allocation / ((specs.getD j default).amount : ℚ),
         (specs.getD j default).profile) := by
  have hlen : (specs.flatMap fun s => List.replicate s.amount s).length = amountSum specs :=
    length_flatMap_replicate specs
  constructor
  · simp [add_apartment_by_type, hlen]
  · have hidx : amountSum (specs.take j) + k < amountSum specs :=
      amountSum_take_add_lt specs j k hj hk
    unfold add_apartment_by_type
    rw [enum_map_getD _ _ _ (by rw [hlen]; exact hidx),
      flatMap_replicate_getD specs j k hj hk]

/-- C6 witness: type "A" with amount 2 and weight 1/5 expands into "A1","A2",
each with weight 1/10 (the claim's example, 0.2 and 0.1 as exact rationals). -/
theorem c6_by_type_expansion_witness :
    add_apartment_by_type [⟨"A", 1/5, 2, "p.csv"⟩]
      = [("A1", 1/10, "p.csv"), ("A2", 1/10, "p.csv")] ∧
    (add_apartment_by_type [⟨"A", 1/5, 2, "p.csv"⟩]).getD 1 default
      = ("A2", 1/10, "p.csv") := by
  have h := c6_by_type_expansion [⟨"A", 1/5, 2, "p.csv"⟩] 0 1 (by decide) (by decide)
  have hlist : add_apartment_by_type [⟨"A", 1/5, 2, "p.csv"⟩]
      = [("A1", 1/10, "p.csv"), ("A2", 1/10, "p.csv")] := by
    simp only [add_apartment_by_type, List.flatMap_cons, List.flatMap_nil,
      List.replicate, List.append_nil, List.enum, List.enumFrom,
      List.map_cons, List.map_nil]
    norm_num
    constructor <;> rfl
  exact ⟨hlist, by rw [hlist]; rfl⟩

/-- C3: for an hour_key present in exactly k of the windowed years, the
median column holds the statistical median of exactly those k year values
(years with no value are ignored, not treated as zero: a data-less year added
to the row leaves the result unchanged), and the fees column holds that same
median multiplied by (1 + VAT_fraction + transfer_fee_fraction) — even though
the code computes it as a second row median taken after the raw-median column
was already appended to the frame. -/
theorem c3_spot_calculate_median (vat transfer : ℚ) (ys : List (Option ℚ)) (m : ℚ)
    (hm : rowMedian ys = some m) :
    rowMedian ys = median (ys.filterMap id) ∧
    rowMedian (none :: ys) = rowMedian ys ∧
    ((ys.filterMap id).length % 2 = 1 →
      m = (sortQ (ys.filterMap id)).getD ((ys.filterMap id).length / 2) 0) ∧
    ((ys.filterMap id).length % 2 = 0 →
      m = ((sortQ (ys.filterMap id)).getD ((ys.filterMap id).length / 2 - 1) 0
            + (sortQ (ys.filterMap id)).getD ((ys.filterMap id).length / 2) 0) / 2) ∧
    rowMedianFees (additional_fee vat transfer) ys
      = some (m * (1 + vat + transfer)) := by
  have hne : (ys.filterMap id).length ≠ 0 := by
    intro h0
    rw [rowMedian, median, if_pos h0] at hm
    exact Option.noConfusion hm
  refine ⟨rfl, ?_, ?_, ?_, ?_⟩
  · simp [rowMedian]
  · intro hodd
    have hm2 := hm
    rw [rowMedian, median, if_neg hne, if_pos hodd] at hm2
    exact (Option.some.injEq _ _ ▸ hm2).symm
  · intro heven
    have hm2 := hm
    rw [rowMedian, median, if_neg hne, if_neg (by omega)] at hm2
    exact (Option.some.injEq _ _ ▸ hm2).symm
  · have hm3 : median (ys.filterMap id) = some m := hm
    rw [rowMedianFees]
    have hsplit : (ys ++ [rowMedian ys]).filterMap id = ys.filterMap id ++ [m] := by
      rw [List.filterMap_append, hm]
      rfl
    rw [hsplit, median_append_self _ m hm3]
    rfl

/-- C3 witness: the hour_key has values 3, 1, 2 in three of four years; the
median is 2 and the fees column is 2 × (1 + 0.255 + 0.111). -/
theorem c3_spot_calculate_median_witness :
    rowMedian [some 3, none, some 1, some 2] = some 2 ∧
    rowMedianFees (additional_fee (51/200) (111/1000)) [some 3, none, some 1, some 2]
      = some (2 * (1 + 51/200 + 111/1000)) := by
  have hmfact : rowMedian [some 3, none, some 1, some 2] = some 2 := by decide
  have h := c3_spot_calculate_median (51/200) (111/1000)
    [some 3, none, some 1, some 2] 2 hmfact
  exact ⟨hmfact, h.2.2.2.2⟩

/-- C5: format detection tries the fixed `date_time_formats` list in order
against each of the first 20 non-empty samples; the selected format is the
first candidate in list order that parses some sample (every earlier
candidate fails on that sample, so a later candidate is never selected even
if it could also parse), detection stops at the first successful
sample/candidate pair (every earlier sample matched no candidate at all);
and if no candidate matches any sampled row the column is returned
unparsed. -/
theorem c5_format_detection (parses : String → String → Bool)
    (rawColumn : List (Option String)) :
    (∀ f, detect_date_format parses rawColumn = some f →
      ∃ k, ∃ hk : k < ((rawColumn.filterMap id).take 20).length,
        (∃ l1 l2, date_time_formats = l1 ++ f :: l2 ∧
          parses (((rawColumn.filterMap id).take 20).get ⟨k, hk⟩).trim f = true ∧
          ∀ g ∈ l1,
            parses (((rawColumn.filterMap id).take 20).get ⟨k, hk⟩).trim g = false) ∧
        (∀ j, ∀ hj : j < ((rawColumn.filterMap id).take 20).length, j < k →
          ∀ g ∈ date_time_formats,
            parses (((rawColumn.filterMap id).take 20).get ⟨j, hj⟩).trim g = false)) ∧
    (detect_date_format parses rawColumn = none →
      parse_column_action parses rawColumn = ColParse.unparsed ∧
      ∀ s ∈ (rawColumn.filterMap id).take 20, ∀ g ∈ date_time_formats,
        parses s.trim g = false) := by
  constructor
  · intro f hf
    obtain ⟨k, hk, hgk, hprev⟩ := findSome?_eq_some_first _ _ _ hf
    refine ⟨k, hk, ?_, ?_⟩
    · obtain ⟨l1, l2, hsplit, hpa, hall⟩ := find?_eq_some_split _ _ _ hgk
      exact ⟨l1, l2, hsplit, hpa, hall⟩
    · intro j hj hjk g hg
      have hnone := hprev j hj hjk
      rw [List.find?_eq_none] at hnone
      have := hnone g hg
      simpa using this
  · intro hnone
    constructor
    · rw [parse_column_action, hnone]
    · intro s hs g hg
      rw [detect_date_format, List.findSome?_eq_none_iff] at hnone
      have := hnone s hs
      rw [List.find?_eq_none] at this
      simpa using this g hg

/-- C5 witness: a parse predicate that never succeeds leaves the column of a
one-sample file unparsed. -/
theorem c5_format_detection_witness :
    parse_column_action (fun _ _ => false) [some "abc"] = ColParse.unparsed ∧
    ∀ s ∈ (([some "abc"] : List (Option String)).filterMap id).take 20,
      ∀ g ∈ date_time_formats, (fun (_ _ : String) => false) s.trim g = false :=
  (c5_format_detection (fun _ _ => false) [some "abc"]).2 (by rfl)

/-- C8: for an unreadable file path, line 122 of `auxiliary_module.py`
executes `return pd.DataFrame` with no parentheses, giving back the class
object itself — not an empty DataFrame value as the claim (and the function's
own docstring and return annotation) state. -/
theorem c8_unreadable_returns_class (readCsv : String → Option Frame) (path : String)
    (h : readCsv path = none) :
    profile_csv_read readCsv path = PyReturn.dataFrameClass ∧
    ∀ df : Frame, profile_csv_read readCsv path ≠ PyReturn.frame df := by
  unfold profile_csv_read
  rw [h]
  exact ⟨rfl, fun df hdf => PyReturn.noConfusion hdf⟩

/-- C8 witness: evaluation at a concrete unreadable path. -/
theorem c8_unreadable_returns_class_witness :
    profile_csv_read (fun _ => none) "missing.csv" = PyReturn.dataFrameClass ∧
    ∀ df : Frame, profile_csv_read (fun _ => none) "missing.csv" ≠ PyReturn.frame df :=
  c8_unreadable_returns_class (fun _ => none) "missing.csv" rfl

/-- C4: in `calculate_apartment`, every unit's after-PV column equals
`consumption - (pv_leftover * allocation_weight)` with no clipping at zero,
its value-of-coverage column equals `fees_price * (consumption - after)`, and
the two new columns sit at positions `i+1` and `i+2` immediately following
that unit's consumption column at position `i` — not appended at the end of
the frame. -/
theorem c4_apartment_insertion (med fees prod cons : List ℚ) (apts : List AptData)
    (hnodup : (frame_names (calculate_company_frame med fees prod cons)
      ++ apts.flatMap block_names).Nodup) :
    ∃ F, calculate_apartment_frame
        (add_apartment_cons_frame (calculate_company_frame med fees prod cons) apts)
        apts = some F ∧
      ∀ a ∈ apts, ∃ i,
        F.getD i default = ⟨apt_consumption_column a.apartment, a.cons⟩ ∧
        F.getD (i + 1) default
          = ⟨apt_after_pv_column a.apartment,
             List.zipWith (fun c l => c - l * a.allocation) a.cons
               (pv_after_company_vals prod cons)⟩ ∧
        F.getD (i + 2) default
          = ⟨apt_value_column a.apartment,
             List.zipWith (fun pf cv => pf * cv) fees
               (List.zipWith (fun c af => c - af) a.cons
                 (List.zipWith (fun c l => c - l * a.allocation) a.cons
                   (pv_after_company_vals prod cons)))⟩ := by
  have hfind1 : (calculate_company_frame med fees prod cons).find?
      (fun c => c.name == spot_price_median_fees)
      = some ⟨spot_price_median_fees, fees⟩ := rfl
  have hfind2 : (calculate_company_frame med fees prod cons).find?
      (fun c => c.name == pv_after_company)
      = some ⟨pv_after_company, pv_after_company_vals prod cons⟩ := rfl
  have hfold := calculate_apartment_fold_eq fees (pv_after_company_vals prod cons) apts
    (calculate_company_frame med fees prod cons) hfind1 hfind2 hnodup
  rw [add_apartment_cons_frame]
  refine ⟨_, hfold, ?_⟩
  intro a ha
  obtain ⟨l1, l2, hsplit⟩ := List.append_of_mem ha
  subst hsplit
  have hre : calculate_company_frame med fees prod cons
      ++ (l1 ++ a :: l2).flatMap (apt_block fees (pv_after_company_vals prod cons))
      = (calculate_company_frame med fees prod cons
          ++ l1.flatMap (apt_block fees (pv_after_company_vals prod cons)))
        ++ (apt_block fees (pv_after_company_vals prod cons) a
            ++ l2.flatMap (apt_block fees (pv_after_company_vals prod cons))) := by
    rw [List.flatMap_append, List.flatMap_cons]
    simp [List.append_assoc]
  set P := calculate_company_frame med fees prod cons
    ++ l1.flatMap (apt_block fees (pv_after_company_vals prod cons)) with hP
  refine ⟨P.length, ?_, ?_, ?_⟩
  · rw [hre, List.getD_append_right _ _ _ _ (le_refl _), Nat.sub_self]
    rfl
  · rw [hre, List.getD_append_right _ _ _ _ (by omega),
      show P.length + 1 - P.length = 1 by omega]
    rfl
  · rw [hre, List.getD_append_right _ _ _ _ (by omega),
      show P.length + 2 - P.length = 2 by omega]
    rfl

/-- C4 witness: one unit with weight 1/2 and consumption [4] against
production [5] and company consumption [3]. -/
theorem c4_apartment_insertion_witness :
    ∃ F, calculate_apartment_frame
        (add_apartment_cons_frame (calculate_company_frame [1] [2] [5] [3])
          [⟨"A1", 1/2, [4]⟩]) [⟨"A1", 1/2, [4]⟩] = some F ∧
      ∀ a ∈ [(⟨"A1", 1/2, [4]⟩ : AptData)], ∃ i,
        F.getD i default = ⟨apt_consumption_column a.apartment, a.cons⟩ ∧
        F.getD (i + 1) default
          = ⟨apt_after_pv_column a.apartment,
             List.zipWith (fun c l => c - l * a.allocation) a.cons
               (pv_after_company_vals [5] [3])⟩ ∧
        F.getD (i + 2) default
          = ⟨apt_value_column a.apartment,
             List.zipWith (fun pf cv => pf * cv) [2]
               (List.zipWith (fun c af => c - af) a.cons
                 (List.zipWith (fun c l => c - l * a.allocation) a.cons
                   (pv_after_company_vals [5] [3])))⟩ :=
  c4_apartment_insertion [1] [2] [5] [3] [⟨"A1", 1/2, [4]⟩] (by decide)

/-- C7: in the frame produced by `calculate_pv_over_production`, for every row
with non-negative production, company consumption and unit consumptions, the
grid-surplus column equals `max(production - (company + sum of unit
consumptions), 0)` — never negative and never exceeding production (also
after the final 3-decimal rounding of the frame) — and the value-to-grid
column equals the fee-free spot median times the surplus. -/
theorem c7_grid_surplus (med fees prod cons : List ℚ) (apts : List AptData)
    (hnodup : (frame_names (calculate_company_frame med fees prod cons)
      ++ apts.flatMap block_names).Nodup)
    (hc : cons.length = prod.length) (hm : med.length = prod.length)
    (i : Nat) (hi : i < prod.length)
    (hprod : 0 ≤ prod.getD i 0) (hcons : 0 ≤ cons.getD i 0)
    (hapts : ∀ a ∈ apts, 0 ≤ a.cons.getD i 0) :
    ∃ G, calculate_pv_over_frame med fees prod cons apts
        = some (round3_frame (G
            ++ [⟨pv_over_production, pv_over_vals prod cons apts⟩,
                ⟨value_to_grid, value_to_grid_vals med prod cons apts⟩])) ∧
      (pv_over_vals prod cons apts).getD i 0
        = max (prod.getD i 0
            - (cons.getD i 0 + (apts.map (fun a => a.cons.getD i 0)).sum)) 0 ∧
      0 ≤ round3 ((pv_over_vals prod cons apts).getD i 0) ∧
      round3 ((pv_over_vals prod cons apts).getD i 0) ≤ round3 (prod.getD i 0) ∧
      (value_to_grid_vals med prod cons apts).getD i 0
        = (pv_over_vals prod cons apts).getD i 0 * med.getD i 0 := by
  have hfind1 : (calculate_company_frame med fees prod cons).find?
      (fun c => c.name == spot_price_median_fees)
      = some ⟨spot_price_median_fees, fees⟩ := rfl
  have hfind2 : (calculate_company_frame med fees prod cons).find?
      (fun c => c.name == pv_after_company)
      = some ⟨pv_after_company, pv_after_company_vals prod cons⟩ := rfl
  have hfold := calculate_apartment_fold_eq fees (pv_after_company_vals prod cons) apts
    (calculate_company_frame med fees prod cons) hfind1 hfind2 hnodup
  have hsumlen : (profile_sum_vals apts prod.length).length = prod.length := by
    simp [profile_sum_vals]
  have hsum : (profile_sum_vals apts prod.length).getD i 0
      = (apts.map (fun a => a.cons.getD i 0)).sum := by
    rw [profile_sum_vals, List.getD_eq_getElem _ _ (by simpa using hi),
      List.getElem_map, List.getElem_range]
  have hinlen : (List.zipWith (fun c u => c + u) cons
      (profile_sum_vals apts prod.length)).length = prod.length := by
    simp [List.length_zipWith, hsumlen, hc]
  have hin : (List.zipWith (fun c u => c + u) cons
      (profile_sum_vals apts prod.length)).getD i 0
      = cons.getD i 0 + (apts.map (fun a => a.cons.getD i 0)).sum := by
    rw [getD_zipWith _ _ _ _ (by omega) (by omega), hsum]
  have hpv : (pv_over_vals prod cons apts).getD i 0
      = clip0 (prod.getD i 0
          - (cons.getD i 0 + (apts.map (fun a => a.cons.getD i 0)).sum)) := by
    rw [pv_over_vals, getD_zipWith _ _ _ _ hi (by omega), hin]
  have hpvlen : (pv_over_vals prod cons apts).length = prod.length := by
    simp [pv_over_vals, List.length_zipWith, hinlen]
  have hsum0 : 0 ≤ (apts.map (fun a => a.cons.getD i 0)).sum := by
    refine List.sum_nonneg ?_
    intro x hx
    obtain ⟨a, ha, hax⟩ := List.mem_map.mp hx
    rw [← hax]
    exact hapts a ha
  refine ⟨calculate_company_frame med fees prod cons
    ++ apts.flatMap (apt_block fees (pv_after_company_vals prod cons)),
    ?_, ?_, ?_, ?_, ?_⟩
  · rw [calculate_pv_over_frame, add_apartment_cons_frame, hfold]
    rfl
  · rw [hpv]; rfl
  · refine round3_nonneg _ ?_
    rw [hpv]
    exact le_max_right _ _
  · refine round3_mono _ _ ?_
    rw [hpv, clip0]
    refine max_le (by linarith) hprod
  · rw [value_to_grid_vals, getD_zipWith _ _ _ _ (by omega) (by omega)]

/-- C7 witness: production 5, company consumption 3, one unit consuming 4 —
the surplus row is clipped to 0 and stays within production. -/
theorem c7_grid_surplus_witness :
    ∃ G, calculate_pv_over_frame [1] [2] [5] [3] [⟨"A1", 1/2, [4]⟩]
        = some (round3_frame (G
            ++ [⟨pv_over_production, pv_over_vals [5] [3] [⟨"A1", 1/2, [4]⟩]⟩,
                ⟨value_to_grid, value_to_grid_vals [1] [5] [3] [⟨"A1", 1/2, [4]⟩]⟩])) ∧
      (pv_over_vals [5] [3] [⟨"A1", 1/2, [4]⟩]).getD 0 0
        = max (([5] : List ℚ).getD 0 0
            - (([3] : List ℚ).getD 0 0
              + ([(⟨"A1", 1/2, [4]⟩ : AptData)].map (fun a => a.cons.getD 0 0)).sum)) 0 ∧
      0 ≤ round3 ((pv_over_vals [5] [3] [⟨"A1", 1/2, [4]⟩]).getD 0 0) ∧
      round3 ((pv_over_vals [5] [3] [⟨"A1", 1/2, [4]⟩]).getD 0 0)
        ≤ round3 (([5] : List ℚ).getD 0 0) ∧
      (value_to_grid_vals [1] [5] [3] [⟨"A1", 1/2, [4]⟩]).getD 0 0
        = (pv_over_vals [5] [3] [⟨"A1", 1/2, [4]⟩]).getD 0 0
          * ([1] : List ℚ).getD 0 0 :=
  c7_grid_surplus [1] [2] [5] [3] [⟨"A1", 1/2, [4]⟩] (by decide) (by decide) (by decide)
    0 (by decide) (by decide) (by decide) (by decide)

/-- C9: in the final frame, the i-th column whose name contains "consumption"
and the i-th column whose name contains "after" (in left-to-right order)
refer to the same entity — the company pair first, then each unit's pair in
resolution order — because each unit's after-PV column is inserted adjacent
to its consumption column; `energy_value_sum` relies on this when it zips the
two filtered lists to compute per-entity covered energy. -/
theorem c9_positional_pairing (med fees prod cons : List ℚ) (apts : List AptData)
    (hnodup : (frame_names (calculate_company_frame med fees prod cons)
      ++ apts.flatMap block_names).Nodup)
    (hclean : ∀ a ∈ apts,
      lowerContains (apt_consumption_column a.apartment) "consumption" = true ∧
      lowerContains (apt_consumption_column a.apartment) "after" = false ∧
      lowerContains (apt_after_pv_column a.apartment) "after" = true ∧
      lowerContains (apt_after_pv_column a.apartment) "consumption" = false ∧
      lowerContains (apt_value_column a.apartment) "consumption" = false ∧
      lowerContains (apt_value_column a.apartment) "after" = false) :
    ∃ F, calculate_pv_over_frame med fees prod cons apts = some F ∧
      (F.filter (fun c => lowerContains c.name "consumption")).map (fun c => c.name)
        = company_column :: apts.map (fun a => apt_consumption_column a.apartment) ∧
      (F.filter (fun c => lowerContains c.name "after")).map (fun c => c.name)
        = company_after_pv :: apts.map (fun a => apt_after_pv_column a.apartment) ∧
      energy_value_sum F
        = some ((strReplaceAll company_column "consumption" "consumption covered",
            (List.zipWith (fun b x => b - x) (cons.map round3)
              ((company_after_vals prod cons).map round3)).sum)
          :: apts.map (fun a =>
            (strReplaceAll (apt_consumption_column a.apartment) "consumption"
              "consumption covered",
             (List.zipWith (fun b x => b - x) (a.cons.map round3)
               ((apt_after_vals (pv_after_company_vals prod cons) a).map round3)).sum))) := by
  have hfind1 : (calculate_company_frame med fees prod cons).find?
      (fun c => c.name == spot_price_median_fees)
      = some ⟨spot_price_median_fees, fees⟩ := rfl
  have hfind2 : (calculate_company_frame med fees prod cons).find?
      (fun c => c.name == pv_after_company)
      = some ⟨pv_after_company, pv_after_company_vals prod cons⟩ := rfl
  have hfold := calculate_apartment_fold_eq fees (pv_after_company_vals prod cons) apts
    (calculate_company_frame med fees prod cons) hfind1 hfind2 hnodup
  have hFstruct : calculate_pv_over_frame med fees prod cons apts
      = some (round3_frame ((calculate_company_frame med fees prod cons
          ++ apts.flatMap (apt_block fees (pv_after_company_vals prod cons)))
        ++ [⟨pv_over_production, pv_over_vals prod cons apts⟩,
            ⟨value_to_grid, value_to_grid_vals med prod cons apts⟩])) := by
    rw [calculate_pv_over_frame, add_apartment_cons_frame, hfold]
    rfl
  have hblockC : ∀ a ∈ apts, (apt_block fees (pv_after_company_vals prod cons) a).filter
      (fun c => lowerContains c.name "consumption") = [apt_cons_col a] := by
    intro a ha
    obtain ⟨h1, h2, h3, h4, h5, h6⟩ := hclean a ha
    rw [apt_block, filter_triple_first _ _ _ _ (by simpa using h1) (by simpa using h4)
      (by simpa using h5)]
    rfl
  have hblockA : ∀ a ∈ apts, (apt_block fees (pv_after_company_vals prod cons) a).filter
      (fun c => lowerContains c.name "after")
      = [⟨apt_after_pv_column a.apartment,
          apt_after_vals (pv_after_company_vals prod cons) a⟩] := by
    intro a ha
    obtain ⟨h1, h2, h3, h4, h5, h6⟩ := hclean a ha
    rw [apt_block, filter_triple_second _ _ _ _ (by simpa using h2) (by simpa using h3)
      (by simpa using h6)]
  have htailC : ([⟨pv_over_production, pv_over_vals prod cons apts⟩,
      ⟨value_to_grid, value_to_grid_vals med prod cons apts⟩] : Frame).filter
      (fun c => lowerContains c.name "consumption") = [] := by
    rw [filter_col_neg _ _ _ _ (by decide), filter_col_neg _ _ _ _ (by decide)]
    rfl
  have htailA : ([⟨pv_over_production, pv_over_vals prod cons apts⟩,
      ⟨value_to_grid, value_to_grid_vals med prod cons apts⟩] : Frame).filter
      (fun c => lowerContains c.name "after") = [] := by
    rw [filter_col_neg _ _ _ _ (by decide), filter_col_neg _ _ _ _ (by decide)]
    rfl
  have hfilC : ((calculate_company_frame med fees prod cons
        ++ apts.flatMap (apt_block fees (pv_after_company_vals prod cons)))
      ++ ([⟨pv_over_production, pv_over_vals prod cons apts⟩,
          ⟨value_to_grid, value_to_grid_vals med prod cons apts⟩] : Frame)).filter
      (fun c => lowerContains c.name "consumption")
      = ⟨company_column, cons⟩ :: apts.map apt_cons_col := by
    rw [List.filter_append, List.filter_append, company_filter_consumption,
      filter_flatMap_block _ _ _ _ _ hblockC, flatMap_single_map, htailC]
    simp
  have hfilA : ((calculate_company_frame med fees prod cons
        ++ apts.flatMap (apt_block fees (pv_after_company_vals prod cons)))
      ++ ([⟨pv_over_production, pv_over_vals prod cons apts⟩,
          ⟨value_to_grid, value_to_grid_vals med prod cons apts⟩] : Frame)).filter
      (fun c => lowerContains c.name "after")
      = ⟨company_after_pv, company_after_vals prod cons⟩
        :: apts.map (fun a => (⟨apt_after_pv_column a.apartment,
            apt_after_vals (pv_after_company_vals prod cons) a⟩ : Col)) := by
    rw [List.filter_append, List.filter_append, company_filter_after,
      filter_flatMap_block _ _ _ _ _ hblockA, flatMap_single_map, htailA]
    simp
  have hfC2 : (round3_frame ((calculate_company_frame med fees prod cons
        ++ apts.flatMap (apt_block fees (pv_after_company_vals prod cons)))
      ++ [⟨pv_over_production, pv_over_vals prod cons apts⟩,
          ⟨value_to_grid, value_to_grid_vals med prod cons apts⟩])).filter
      (fun c => lowerContains c.name "consumption")
      = ⟨company_column, cons.map round3⟩
        :: apts.map (fun a => (⟨apt_consumption_column a.apartment,
            a.cons.map round3⟩ : Col)) := by
    rw [filter_round3_frame, hfilC, round3_frame_cons]
    congr 1
    rw [round3_frame, List.map_map]
    rfl
  have hfA2 : (round3_frame ((calculate_company_frame med fees prod cons
        ++ apts.flatMap (apt_block fees (pv_after_company_vals prod cons)))
      ++ [⟨pv_over_production, pv_over_vals prod cons apts⟩,
          ⟨value_to_grid, value_to_grid_vals med prod cons apts⟩])).filter
      (fun c => lowerContains c.name "after")
      = ⟨company_after_pv, (company_after_vals prod cons).map round3⟩
        :: apts.map (fun a => (⟨apt_after_pv_column a.apartment,
            (apt_after_vals (pv_after_company_vals prod cons) a).map round3⟩ : Col)) := by
    rw [filter_round3_frame, hfilA, round3_frame_cons]
    congr 1
    rw [round3_frame, List.map_map]
    rfl
  refine ⟨_, hFstruct, ?_, ?_, ?_⟩
  · rw [hfC2, List.map_cons, List.map_map]
    rfl
  · rw [hfA2, List.map_cons, List.map_map]
    rfl
  · rw [energy_value_sum, if_neg (by rw [hfC2, hfA2]; simp)]
    rw [hfC2, hfA2, List.zip_cons_cons, List.zip_map', List.map_cons, List.map_map]
    rfl

/-- C9 witness: one unit named A1 — clean identifiers, pairing verified on a
concrete frame. -/
theorem c9_positional_pairing_witness :
    ∃ F, calculate_pv_over_frame [1] [2] [5] [3] [⟨"A1", 1/2, [4]⟩] = some F ∧
      (F.filter (fun c => lowerContains c.name "consumption")).map (fun c => c.name)
        = company_column
          :: [(⟨"A1", 1/2, [4]⟩ : AptData)].map (fun a => apt_consumption_column a.apartment) ∧
      (F.filter (fun c => lowerContains c.name "after")).map (fun c => c.name)
        = company_after_pv
          :: [(⟨"A1", 1/2, [4]⟩ : AptData)].map (fun a => apt_after_pv_column a.apartment) ∧
      energy_value_sum F
        = some ((strReplaceAll company_column "consumption" "consumption covered",
            (List.zipWith (fun b x => b - x) (([3] : List ℚ).map round3)
              ((company_after_vals [5] [3]).map round3)).sum)
          :: [(⟨"A1", 1/2, [4]⟩ : AptData)].map (fun a =>
            (strReplaceAll (apt_consumption_column a.apartment) "consumption"
              "consumption covered",
             (List.zipWith (fun b x => b - x) (a.cons.map round3)
               ((apt_after_vals (pv_after_company_vals [5] [3]) a).map round3)).sum))) :=
  c9_positional_pairing [1] [2] [5] [3] [⟨"A1", 1/2, [4]⟩] (by decide) (by decide)

/-- C10: `sma_value_sum` returns, for every column of the final frame whose
lowercased name contains "value", that column's sum rounded to 0 decimals —
company value, each unit's value, then the grid value — and every returned
total is a whole number (an integer cast), even though the frame itself was
only rounded to 3 decimals. -/
theorem c10_sma_value_sum (med fees prod cons : List ℚ) (apts : List AptData)
    (hnodup : (frame_names (calculate_company_frame med fees prod cons)
      ++ apts.flatMap block_names).Nodup)
    (hcleanv : ∀ a ∈ apts,
      lowerContains (apt_consumption_column a.apartment) "value" = false ∧
      lowerContains (apt_after_pv_column a.apartment) "value" = false ∧
      lowerContains (apt_value_column a.apartment) "value" = true) :
    ∃ F, calculate_pv_over_frame med fees prod cons apts = some F ∧
      sma_value_sum F
        = (value_after_subtraction,
            round0 (((company_value_vals fees prod cons).map round3).sum))
          :: (apts.map (fun a => (apt_value_column a.apartment,
              round0 (((apt_value_vals fees (pv_after_company_vals prod cons) a).map
                round3).sum)))
            ++ [(value_to_grid,
                round0 (((value_to_grid_vals med prod cons apts).map round3).sum))]) ∧
      ∀ e ∈ sma_value_sum F, ∃ z : ℤ, e.2 = (z : ℚ) := by
  have hfind1 : (calculate_company_frame med fees prod cons).find?
      (fun c => c.name == spot_price_median_fees)
      = some ⟨spot_price_median_fees, fees⟩ := rfl
  have hfind2 : (calculate_company_frame med fees prod cons).find?
      (fun c => c.name == pv_after_company)
      = some ⟨pv_after_company, pv_after_company_vals prod cons⟩ := rfl
  have hfold := calculate_apartment_fold_eq fees (pv_after_company_vals prod cons) apts
    (calculate_company_frame med fees prod cons) hfind1 hfind2 hnodup
  have hFstruct : calculate_pv_over_frame med fees prod cons apts
      = some (round3_frame ((calculate_company_frame med fees prod cons
          ++ apts.flatMap (apt_block fees (pv_after_company_vals prod cons)))
        ++ [⟨pv_over_production, pv_over_vals prod cons apts⟩,
            ⟨value_to_grid, value_to_grid_vals med prod cons apts⟩])) := by
    rw [calculate_pv_over_frame, add_apartment_cons_frame, hfold]
    rfl
  have hblockV : ∀ a ∈ apts, (apt_block fees (pv_after_company_vals prod cons) a).filter
      (fun c => lowerContains c.name "value")
      = [⟨apt_value_column a.apartment,
          apt_value_vals fees (pv_after_company_vals prod cons) a⟩] := by
    intro a ha
    obtain ⟨h1, h2, h3⟩ := hcleanv a ha
    rw [apt_block, filter_triple_third _ _ _ _ (by simpa using h1) (by simpa using h2)
      (by simpa using h3)]
  have htailV : ([⟨pv_over_production, pv_over_vals prod cons apts⟩,
      ⟨value_to_grid, value_to_grid_vals med prod cons apts⟩] : Frame).filter
      (fun c => lowerContains c.name "value")
      = [⟨value_to_grid, value_to_grid_vals med prod cons apts⟩] := by
    rw [filter_col_neg _ _ _ _ (by decide), filter_col_pos _ _ _ _ (by decide)]
    rfl
  have hfilV : ((calculate_company_frame med fees prod cons
        ++ apts.flatMap (apt_block fees (pv_after_company_vals prod cons)))
      ++ ([⟨pv_over_production, pv_over_vals prod cons apts⟩,
          ⟨value_to_grid, value_to_grid_vals med prod cons apts⟩] : Frame)).filter
      (fun c => lowerContains c.name "value")
      = ⟨value_after_subtraction, company_value_vals fees prod cons⟩
        :: (apts.map (fun a => (⟨apt_value_column a.apartment,
            apt_value_vals fees (pv_after_company_vals prod cons) a⟩ : Col))
          ++ [⟨value_to_grid, value_to_grid_vals med prod cons apts⟩]) := by
    rw [List.filter_append, List.filter_append, company_filter_value,
      filter_flatMap_block _ _ _ _ _ hblockV, flatMap_single_map, htailV]
    simp
  have hfV2 : (round3_frame ((calculate_company_frame med fees prod cons
        ++ apts.flatMap (apt_block fees (pv_after_company_vals prod cons)))
      ++ [⟨pv_over_production, pv_over_vals prod cons apts⟩,
          ⟨value_to_grid, value_to_grid_vals med prod cons apts⟩])).filter
      (fun c => lowerContains c.name "value")
      = ⟨value_after_subtraction, (company_value_vals fees prod cons).map round3⟩
        :: (apts.map (fun a => (⟨apt_value_column a.apartment,
            (apt_value_vals fees (pv_after_company_vals prod cons) a).map round3⟩ : Col))
          ++ [⟨value_to_grid, (value_to_grid_vals med prod cons apts).map round3⟩]) := by
    rw [filter_round3_frame, hfilV, round3_frame_cons]
    congr 1
    rw [round3_frame, List.map_append, List.map_map]
    rfl
  refine ⟨_, hFstruct, ?_, ?_⟩
  · rw [sma_value_sum, hfV2, List.map_cons, List.map_append, List.map_map]
    rfl
  · intro e he
    exact sma_entries_int _ e he

/-- C10 witness: concrete one-unit run — the three value totals are integer
casts. -/
theorem c10_sma_value_sum_witness :
    ∃ F, calculate_pv_over_frame [1] [2] [5] [3] [⟨"A1", 1/2, [4]⟩] = some F ∧
      sma_value_sum F
        = (value_after_subtraction,
            round0 (((company_value_vals [2] [5] [3]).map round3).sum))
          :: ([(⟨"A1", 1/2, [4]⟩ : AptData)].map (fun a => (apt_value_column a.apartment,
              round0 (((apt_value_vals [2] (pv_after_company_vals [5] [3]) a).map
                round3).sum)))
            ++ [(value_to_grid,
                round0 (((value_to_grid_vals [1] [5] [3] [⟨"A1", 1/2, [4]⟩]).map
                  round3).sum))]) ∧
      ∀ e ∈ sma_value_sum F, ∃ z : ℤ, e.2 = (z : ℚ) :=
  c10_sma_value_sum [1] [2] [5] [3] [⟨"A1", 1/2, [4]⟩] (by decide) (by decide)

end EnergyAlloc
